import Mathlib

/-
Shallow embedding of the trends.earth-schemas land-cover core
(`te_schemas/land_cover.py`) and the error-recode lookup tables
(`te_schemas/error_recode.py`).

Conventions of the embedding:
* Python `int` is `Int` (class codes can in principle be negative); loop
  counters and list positions are `Nat`.
* Python `None`-able attributes are `Option _`; Python structural equality
  (`LCClass.__eq__`, which compares all five fields) is the derived
  `DecidableEq` on the corresponding structure.
* Code that can raise is modelled with `Except String _` (the error string
  names the Python exception) or with `Option _` when only one failure mode
  exists; code that cannot raise is a plain function.
* `sorted(...)` is `List.insertionSort` (both are stable ascending sorts;
  insertion sort is chosen because it is structurally recursive, so concrete
  legends evaluate inside the kernel).
* Python `dict` values that the source iterates in insertion order
  (`LCLegendNesting.nesting`, the error-recode dict) are association lists.
-/

namespace TESchemas

/-- `LCClass`: land-cover class record. Python's `__eq__` compares all five
fields, which is the derived `DecidableEq`. -/
structure LCClass where
  code : Int
  name_short : Option String := none
  name_long : Option String := none
  description : Option String := none
  color : Option String := none
deriving DecidableEq, Repr, Inhabited

/-- `LCClass.update`: copy every attribute except `code` from `other`
(the Python loop skips `code` and assigns each differing field). -/
def LCClass.update (self other : LCClass) : LCClass :=
  { code := self.code
    name_short := other.name_short
    name_long := other.name_long
    description := other.description
    color := other.color }

/-- `LCLegend`: named, code-unique, code-sorted collection of classes with an
optional nodata sentinel. -/
structure LCLegend where
  name : String
  key : List LCClass := []
  nodata : Option LCClass := none
deriving DecidableEq, Repr, Inhabited

/-- `LCLegend.__post_init__`: raise `ValidationError` when two classes in
`key` share a code (`len(set(codes)) == len(codes)` is the
distinct-count test, i.e. `codes.dedup.length = codes.length`), otherwise
sort `key` ascending by code (`sorted` with key `c.code`, stable). -/
def LCLegend.post_init (name : String) (key : List LCClass)
    (nodata : Option LCClass) : Except String LCLegend :=
  let codes := key.map (fun c => c.code)
  if codes.dedup.length = codes.length then
    .ok { name := name
          key := key.insertionSort (fun a b => a.code ≤ b.code)
          nodata := nodata }
  else
    .error "ValidationError: Duplicate LCClass code found in legend"

/-- `LCLegend.key_with_nodata`: `key + [nodata]` when the nodata sentinel is
set (a dataclass instance is always truthy in `if self.nodata:`). -/
def LCLegend.key_with_nodata (l : LCLegend) : List LCClass :=
  match l.nodata with
  | some nd => l.key ++ [nd]
  | none => l.key

/-- `LCLegend.codes`: codes of `key` plus the nodata sentinel. -/
def LCLegend.codes (l : LCLegend) : List Int :=
  l.key_with_nodata.map (fun c => c.code)

/-- `LCLegend.classByCode` (legacy): filter `key_with_nodata` by exact code;
raise `KeyError` when the filter comes back empty, else return the first
match. -/
def LCLegend.classByCode (l : LCLegend) (code : Int) : Except String LCClass :=
  match l.key_with_nodata.filter (fun c => c.code == code) with
  | [] => .error "KeyError: No LCClass found for code"
  | c :: _ => .ok c

/-- `LCLegend.class_by_attr` specialised to the `code` attribute (the only
attribute the claims exercise): first match over `self.key` — the nodata
sentinel is not searched — and `none` when there is no match. -/
def LCLegend.class_by_attr_code (l : LCLegend) (attr_val : Int) :
    Option LCClass :=
  (l.key.filter (fun c => c.code == attr_val)).head?

/-- `LCLegend.class_by_code`: delegates to `class_by_attr("code", code)`;
returns `None` (never raises) on a miss. -/
def LCLegend.class_by_code (l : LCLegend) (code : Int) : Option LCClass :=
  l.class_by_attr_code code

/-- `LCLegend.class_index`: 1-based index of the class's code in the sorted
list of `key` codes. (Python's `list.index` raises for a code not present;
every use below looks up a member of `key`.) -/
def LCLegend.class_index (l : LCLegend) (lcc : LCClass) : Nat :=
  ((l.key.map (fun c => c.code)).insertionSort (· ≤ ·)).indexOf lcc.code + 1

/-- `LCLegend.contains_key`: whether `class_by_code` finds a class. -/
def LCLegend.contains_key (l : LCLegend) (code : Int) : Bool :=
  match l.class_by_code code with
  | none => false
  | some _ => true

/-- `LCLegend.add_update_class`: if a class with the same code exists in
`key`, mutate it in place via `LCClass.update` (modelled by rebuilding the
list with the first code match updated); otherwise `key.append(lcc)`.
Note the source does not re-sort after the append. -/
def LCLegend.add_update_class (l : LCLegend) (lcc : LCClass) : LCLegend :=
  match l.class_by_code lcc.code with
  | none => { l with key := l.key ++ [lcc] }
  | some _ => { l with key := updateFirstByCode l.key lcc }
where
  /-- Apply `LCClass.update lcc` to the first class whose code matches. -/
  updateFirstByCode : List LCClass → LCClass → List LCClass
    | [], _ => []
    | c :: rest, lcc =>
        if c.code == lcc.code then c.update lcc :: rest
        else c :: updateFirstByCode rest lcc

/-- `LCLegend.remove_class`: pop the first class in `key` with the given
code; the Bool reports whether a removal occurred. -/
def LCLegend.remove_class (l : LCLegend) (code : Int) : LCLegend × Bool :=
  if l.contains_key code then
    ({ l with key := l.key.eraseP (fun lcc => lcc.code == code) }, true)
  else
    (l, false)

/-- `math.ceil(math.log10 n)` for `n ≥ 1`: the least `k` with `n ≤ 10 ^ k`.
Computed by searching `k = 0, 1, ...` (the least such `k` is at most `n`
because `n ≤ 10 ^ n`, so the fuel `n + 1` always suffices). Python raises a
math domain error for `n = 0`; the claims only use nonempty legends. -/
def ceilLog10 (n : Nat) : Nat :=
  go n (n + 1) 0
where
  go (n : Nat) : Nat → Nat → Nat
    | 0, k => k
    | fuel + 1, k => if n ≤ 10 ^ k then k else go n fuel (k + 1)

/-- `LCLegend.get_multiplier`: `10 ** math.ceil(math.log10(len(self.key)))`. -/
def LCLegend.get_multiplier (l : LCLegend) : Nat :=
  10 ^ ceilLog10 l.key.length

/-- `LCTransitionMeaningDeg`: one ordered class pair plus a degradation
meaning string (marshmallow restricts it to `degradation`, `stable`,
`improvement` at (de)serialisation time). -/
structure LCTransitionMeaningDeg where
  initial : LCClass
  final : LCClass
  meaning : String
deriving DecidableEq, Repr, Inhabited

/-- `LCTransitionMeaningDeg.code`: dict lookup
`{"degradation": -1, "stable": 0, "improvement": 1}[self.meaning]`;
`none` models the `KeyError` raised for any other string. -/
def LCTransitionMeaningDeg.code (m : LCTransitionMeaningDeg) : Option Int :=
  if m.meaning = "degradation" then some (-1)
  else if m.meaning = "stable" then some 0
  else if m.meaning = "improvement" then some 1
  else none

/-- `LCTransitionMeaningDeg.contains_class`: the `(status, classes)` pair the
source returns — `status` is whether `lcc`'s code appears as initial and/or
final, `classes` collects the matching class objects. -/
def LCTransitionMeaningDeg.contains_class (m : LCTransitionMeaningDeg)
    (lcc : LCClass) : Bool × List LCClass :=
  (m.initial.code == lcc.code || m.final.code == lcc.code,
   (if m.initial.code == lcc.code then [m.initial] else []) ++
   (if m.final.code == lcc.code then [m.final] else []))

/-- Python truthiness of the 2-tuple returned by `contains_class`: a
non-empty tuple is truthy no matter what it contains, so
`if meaning.contains_class(lcc):` always takes the `if` branch. -/
def pyTupleTruthy (p : Bool × List LCClass) : Bool :=
  let _ := p
  true

/-- `LCTransitionMatrixDeg`: a named list of degradation meanings. -/
structure LCTransitionMatrixDeg where
  transitions : List LCTransitionMeaningDeg
  name : String
deriving DecidableEq, Repr, Inhabited

/-- The while-loop body of `remove_meanings_by_class`: scan the transitions
left to right; when `contains_class`'s result is truthy (it always is — see
`pyTupleTruthy`) pop the current entry and record success, else advance. -/
def removeMeaningsLoop (lcc : LCClass) :
    List LCTransitionMeaningDeg → List LCTransitionMeaningDeg × Bool
  | [] => ([], false)
  | m :: rest =>
      if pyTupleTruthy (m.contains_class lcc) then
        ((removeMeaningsLoop lcc rest).1, true)
      else
        (m :: (removeMeaningsLoop lcc rest).1, (removeMeaningsLoop lcc rest).2)

/-- `LCTransitionMatrixDeg.remove_meanings_by_class`. -/
def LCTransitionMatrixDeg.remove_meanings_by_class
    (mat : LCTransitionMatrixDeg) (lcc : LCClass) :
    LCTransitionMatrixDeg × Bool :=
  let r := removeMeaningsLoop lcc mat.transitions
  ({ mat with transitions := r.1 }, r.2)

/-- `LCTransitionDefinitionDeg`: a legend plus a single degradation matrix. -/
structure LCTransitionDefinitionDeg where
  legend : LCLegend
  name : String
  definitions : LCTransitionMatrixDeg
deriving DecidableEq, Repr, Inhabited

/-- `LCTransitionDefinitionDeg.remove_class`: remove from the legend by code
and from the matrix by class, reporting success only when both removals
reported success (`status` starts `True` and is cleared by either failure). -/
def LCTransitionDefinitionDeg.remove_class (d : LCTransitionDefinitionDeg)
    (lcc : LCClass) : LCTransitionDefinitionDeg × Bool :=
  let lr := d.legend.remove_class lcc.code
  let mr := d.definitions.remove_meanings_by_class lcc
  ({ legend := lr.1, name := d.name, definitions := mr.1 }, lr.2 && mr.2)

/-- The nodata test of `_validate_matrix`:
`legend.nodata in (c_initial, c_final)` — tuple membership via `==`, where
`None == LCClass` is `False` and `LCClass.__eq__` is structural. -/
def nodataHit (l : LCLegend) (c_initial c_final : LCClass) : Bool :=
  match l.nodata with
  | some nd => nd == c_initial || nd == c_final
  | none => false

/-- Number of transitions matching an ordered class pair (the list
comprehension `[t for t in transitions if t.initial == c_initial and
t.final == c_final]`, with structural class equality). -/
def countTrans (transitions : List LCTransitionMeaningDeg)
    (c_initial c_final : LCClass) : Nat :=
  (transitions.filter
    (fun t => t.initial == c_initial && t.final == c_final)).length

/-- `_validate_matrix`: iterate `c_final` outer / `c_initial` inner over
`legend.key`; raise when the nodata sentinel equals either class, when a pair
has zero matches, or when a pair has more than one match; finally require
`len(transitions) == len(legend.key) ** 2`. All failure modes raise the same
`ValidationError`, so the result is modelled as a single Bool. -/
def validate_matrix (legend : LCLegend)
    (transitions : List LCTransitionMeaningDeg) : Bool :=
  (legend.key.all fun c_final => legend.key.all fun c_initial =>
      !(nodataHit legend c_initial c_final) &&
      (countTrans transitions c_initial c_final == 1)) &&
  (transitions.length == legend.key.length ^ 2)

/-- The `(c_initial, c_final)` cells of `LCTransitionDefinitionBase.get_list`,
in emission order: `c_final` is the outer loop, `c_initial` the inner. -/
def getListCells (legend : LCLegend) : List (LCClass × LCClass) :=
  legend.key.flatMap fun c_final =>
    legend.key.map fun c_initial => (c_initial, c_final)

/-- `LCTransitionDefinitionBase.get_list` for a single-matrix definition
(the `LCTransitionDefinitionDeg` case): `out[0]` collects
`class_index(c_initial) * multiplier + class_index(c_final)`, `out[1]`
collects `trans.code()` for the unique matching transition. `none` models
the `IndexError` from `[...][0]` when a pair has no matching transition, or
the `KeyError` from `code()` on an invalid meaning string. -/
def LCTransitionDefinitionBase.get_list (legend : LCLegend)
    (transitions : List LCTransitionMeaningDeg) :
    Option (List Nat × List Int) :=
  let cells := getListCells legend
  match cells.mapM (fun p =>
      ((transitions.filter
          (fun t => t.initial == p.1 && t.final == p.2)).head?).bind
        (fun t => t.code)) with
  | none => none
  | some meanings =>
      some (cells.map (fun p =>
        legend.class_index p.1 * legend.get_multiplier +
          legend.class_index p.2), meanings)

/-- The `(c_initial, c_final)` cells of `get_persistence_list`, in emission
order: `c_initial` is the outer loop, `c_final` the inner. -/
def persistenceCells (legend : LCLegend) : List (LCClass × LCClass) :=
  legend.key.flatMap fun c_initial =>
    legend.key.map fun c_final => (c_initial, c_final)

/-- `LCTransitionDefinitionBase.get_persistence_list`: `out[0]` is the full
transition code; `out[1]` compresses the diagonal (`c_final.code ==
c_initial.code`) to `class_index(c_initial)` and keeps the full code off the
diagonal. The matrix is never consulted. -/
def LCTransitionDefinitionBase.get_persistence_list (legend : LCLegend) :
    List Nat × List Nat :=
  let cells := persistenceCells legend
  (cells.map (fun p =>
      legend.class_index p.1 * legend.get_multiplier + legend.class_index p.2),
   cells.map (fun p =>
      if p.2.code == p.1.code then legend.class_index p.1
      else legend.class_index p.1 * legend.get_multiplier +
        legend.class_index p.2))

/-- `LCLegendNesting.__post_init__` checks, over an insertion-ordered
association list standing for the Python dict: sort parent codes (the dict
keys) and the flattened child codes, reject duplicates in either
(`len(set(x)) == len(x)`), then require the sorted parent codes to equal
`sorted(parent.codes())` and likewise for the child. -/
def LCLegendNesting.post_init (parent child : LCLegend)
    (nesting : List (Int × List Int)) : Bool :=
  let nesting_parent_codes :=
    (nesting.map (fun kv => kv.1)).insertionSort (· ≤ ·)
  let nesting_child_codes :=
    (nesting.flatMap (fun kv => kv.2)).insertionSort (· ≤ ·)
  (nesting_parent_codes.dedup.length == nesting_parent_codes.length) &&
  (nesting_child_codes.dedup.length == nesting_child_codes.length) &&
  (parent.codes.insertionSort (· ≤ ·) == nesting_parent_codes) &&
  (child.codes.insertionSort (· ≤ ·) == nesting_child_codes)

/-- `LCLegendNesting.get_list`: `out[0]` concatenates the child-code lists
bucket by bucket, `out[1]` repeats each parent code once per child
(`[key] * len(values)`). -/
def LCLegendNesting.get_list (nesting : List (Int × List Int)) :
    List Int × List Int :=
  (nesting.flatMap (fun kv => kv.2),
   nesting.flatMap (fun kv => List.replicate kv.2.length kv.1))

/-- A Python operand for `LCLegend.__eq__`: either an `LCLegend` or any
non-`LCLegend` value (for the `isinstance` branch). -/
inductive PyOperand where
  | legend (l : LCLegend)
  | notALegend
deriving Repr

/-- Python's `sorted` on a list of `LCClass` with no key function: `LCClass`
defines `__eq__` but no ordering operators, so any sort of two or more
elements performs a `<` comparison and raises `TypeError`; lists of length
at most one are returned without any comparison. -/
def pySortLCClass : List LCClass → Except String (List LCClass)
  | [] => .ok []
  | [c] => .ok [c]
  | _ :: _ :: _ => .error "TypeError: not supported between instances of LCClass"

/-- `LCLegend.__eq__`: `False` for a non-`LCLegend` operand; otherwise
`self.name == other.name and sorted(self.key) == sorted(other.key) and
self.nodata == other.nodata`, with Python's left-to-right short-circuit
evaluation (so `sorted` only runs when the names are equal, and
`sorted(other.key)` only runs after `sorted(self.key)` returned). -/
def LCLegend.pyEq (self : LCLegend) (other : PyOperand) :
    Except String Bool :=
  match other with
  | .notALegend => .ok false
  | .legend other =>
      if self.name == other.name then
        match pySortLCClass self.key with
        | .error e => .error e
        | .ok s1 =>
            match pySortLCClass other.key with
            | .error e => .error e
            | .ok s2 => .ok (s1 == s2 && self.nodata == other.nodata)
      else
        .ok false

end TESchemas

namespace ErrorRecode

/-- `ErrorRecodePolygons.recode_deg_to_options`. -/
def recode_deg_to_options : List (Option Int) :=
  [none, some (-32768), some 0, some 1]

/-- `ErrorRecodePolygons.recode_stable_to_options`. -/
def recode_stable_to_options : List (Option Int) :=
  [none, some (-32768), some (-1), some 1]

/-- `ErrorRecodePolygons.recode_imp_to_options`. -/
def recode_imp_to_options : List (Option Int) :=
  [none, some (-32768), some (-1), some 0]

/-- The option triples in nested-loop order: deg outer, stable middle,
improved inner — shared by both lookup forms. -/
def optionTriples : List (Option Int × Option Int × Option Int) :=
  recode_deg_to_options.flatMap fun d =>
    recode_stable_to_options.flatMap fun s =>
      recode_imp_to_options.map fun i => (d, s, i)

/-- The `None → -9999` sentinel normalisation used by `trans_code_lists`. -/
def noneToSentinel (v : Option Int) : Int :=
  match v with
  | none => -9999
  | some x => x

/-- `ErrorRecodePolygons.trans_code_lists`: parallel lists
`(codes, deg_to, stable_to, imp_to)`; `codes` collects the sequential
counter `n` (i.e. `0, 1, ...`), the targets collect the options with `None`
replaced by `-9999`. -/
def trans_code_lists : List Nat × List Int × List Int × List Int :=
  (List.range optionTriples.length,
   optionTriples.map (fun t => noneToSentinel t.1),
   optionTriples.map (fun t => noneToSentinel t.2.1),
   optionTriples.map (fun t => noneToSentinel t.2.2))

/-- `ErrorRecodePolygons.recode_to_trans_code_dict`: insertion-ordered dict
from the literal option triple (`None` kept as `None`) to the sequential
counter `n`, as an association list. -/
def recode_to_trans_code_dict :
    List ((Option Int × Option Int × Option Int) × Nat) :=
  optionTriples.enum.map (fun e => (e.2, e.1))

end ErrorRecode

namespace TESchemas

/-! Concrete fixtures used by the claims and witnesses. -/

/-- The `Forest` class of the spec's two-class end-to-end scenario. -/
def forest : LCClass :=
  { code := 1, name_short := some "Forest" }

/-- The `Grassland` class of the spec's two-class end-to-end scenario. -/
def grassland : LCClass :=
  { code := 2, name_short := some "Grassland" }

/-- The two-class legend `{1: Forest, 2: Grassland}` (no nodata class). -/
def legendTwo : LCLegend :=
  { name := "Two class", key := [forest, grassland] }

/-- The degradation matrix `{(1,1): stable, (1,2): degradation,
(2,1): improvement, (2,2): stable}`. -/
def matrixTwo : List LCTransitionMeaningDeg :=
  [{ initial := forest, final := forest, meaning := "stable" },
   { initial := forest, final := grassland, meaning := "degradation" },
   { initial := grassland, final := forest, meaning := "improvement" },
   { initial := grassland, final := grassland, meaning := "stable" }]

/-- A nodata sentinel class with code 0. -/
def noDataClass : LCClass :=
  { code := 0, name_short := some "No data" }

/-- A one-class legend whose nodata sentinel is `noDataClass`. -/
def legendNd : LCLegend :=
  { name := "nd", key := [forest], nodata := some noDataClass }

/-- Bare class with code 1. -/
def classOne : LCClass :=
  { code := 1 }

/-- Bare class with code 2. -/
def classTwo : LCClass :=
  { code := 2 }

/-- Bare class with code 3. -/
def classThree : LCClass :=
  { code := 3 }

/-- Legend holding the classes with codes 1 and 3 (as produced by
`LCLegend.post_init`, see `claim5_counterexample`). -/
def legendOneThree : LCLegend :=
  { name := "L", key := [classOne, classThree] }

/-- A single-entry degradation matrix whose only meaning references only the
class with code 1. -/
def matrixOnlyOne : LCTransitionMatrixDeg :=
  { transitions := [{ initial := classOne, final := classOne, meaning := "stable" }]
    name := "deg" }

/-- Transition definition over the one-class legend `{1}` with the
single-entry matrix `matrixOnlyOne`. -/
def degDefOne : LCTransitionDefinitionDeg :=
  { legend := { name := "one", key := [classOne] }
    name := "def"
    definitions := matrixOnlyOne }

/-- Parent legend with codes `{1, 2}` for the nesting fixtures. -/
def parentLegend : LCLegend :=
  { name := "parent", key := [classOne, classTwo] }

/-- Child legend with codes `{10, 11, 12}` for the nesting fixtures. -/
def childLegend : LCLegend :=
  { name := "child", key := [{ code := 10 }, { code := 11 }, { code := 12 }] }

/-- A genuine-partition nesting of `childLegend` under `parentLegend`. -/
def nestingPC : List (Int × List Int) :=
  [(1, [10, 11]), (2, [12])]

end TESchemas

namespace TESchemas

/-- The by-code comparison used to sort legend keys is total. -/
instance : IsTotal LCClass (fun a b => a.code ≤ b.code) :=
  ⟨fun a b => Int.le_total a.code b.code⟩

/-- The by-code comparison used to sort legend keys is transitive. -/
instance : IsTrans LCClass (fun a b => a.code ≤ b.code) :=
  ⟨fun _ _ _ h1 h2 => le_trans h1 h2⟩

/-- C1: for the two-class legend `{1: Forest, 2: Grassland}` with the matrix
`{(1,1): stable, (1,2): degradation, (2,1): improvement, (2,2): stable}`,
`get_multiplier()` is 10 and `get_list()` — iterating `c_final` outer,
`c_initial` inner, with `transition_code = class_index(initial) * multiplier
+ class_index(final)` and meanings encoded degradation → -1, stable → 0,
improvement → +1 — returns exactly `[11, 21, 12, 22]` paired with
`[0, 1, -1, 0]`. -/
theorem claim1_two_class_end_to_end :
    legendTwo.get_multiplier = 10 ∧
    LCTransitionDefinitionBase.get_list legendTwo matrixTwo =
      some ([11, 21, 12, 22], [0, 1, -1, 0]) := by
  decide

/-- C10 first part, also used to derive the necessity direction: when the
names are equal and the left legend's `key` has at least two classes,
`LCLegend.__eq__` reaches `sorted(self.key)`, which raises `TypeError`
because `LCClass` defines `__eq__` but no ordering operators. -/
theorem pyEq_raises (l1 l2 : LCLegend) (hname : l1.name = l2.name)
    (hlen : 2 ≤ l1.key.length) :
    l1.pyEq (.legend l2) =
      .error "TypeError: not supported between instances of LCClass" := by
  rcases hk : l1.key with _ | ⟨a, _ | ⟨b, t⟩⟩
  · simp [hk] at hlen
  · simp [hk] at hlen
  · simp [LCLegend.pyEq, pySortLCClass, hname, hk]

/-- C10: evaluating `l1 == l2` on two `LCLegend` values with equal names and
at least two classes in `l1.key` raises `TypeError` (because
`LCLegend.__eq__` sorts the `LCClass` lists without a key function and
`LCClass` has no ordering operators); the comparison returns normally for a
non-`LCLegend` operand, and an `LCLegend` comparison that returns normally
must have had differing names or fewer than two classes in `l1.key`. -/
theorem claim10_legend_eq_raises :
    (∀ l1 l2 : LCLegend, l1.name = l2.name → 2 ≤ l1.key.length →
      l1.pyEq (.legend l2) =
        .error "TypeError: not supported between instances of LCClass") ∧
    (∀ l1 : LCLegend, l1.pyEq .notALegend = .ok false) ∧
    (∀ (l1 l2 : LCLegend) (b : Bool), l1.pyEq (.legend l2) = .ok b →
      l1.name ≠ l2.name ∨ l1.key.length < 2) := by
  refine ⟨pyEq_raises, fun _ => rfl, ?_⟩
  intro l1 l2 b h
  by_contra hcon
  push_neg at hcon
  rw [pyEq_raises l1 l2 hcon.1 (by omega)] at h
  exact Except.noConfusion h

/-- Witness for C10: the two-class legend compared with itself raises. -/
theorem claim10_witness :
    legendTwo.pyEq (.legend legendTwo) =
      .error "TypeError: not supported between instances of LCClass" :=
  claim10_legend_eq_raises.1 legendTwo legendTwo rfl (by decide)

/-- C8 (code bug): `remove_meanings_by_class` tests the truthiness of the
tuple returned by `contains_class`, which is always truthy, so it deletes
every meaning. At this input the single meaning `(1 → 1, stable)` does not
contain the class with code 2, yet removing that class empties the matrix
and the meaning-removal sub-operation reports success. -/
theorem claim8_remove_class_deletes_all :
    ((({ initial := classOne, final := classOne, meaning := "stable" } :
        LCTransitionMeaningDeg).contains_class classTwo).1 = false) ∧
    matrixOnlyOne.remove_meanings_by_class classTwo =
      ({ transitions := [], name := "deg" }, true) ∧
    degDefOne.remove_class classTwo =
      ({ legend := { name := "one", key := [classOne] }, name := "def",
         definitions := { transitions := [], name := "deg" } }, false) := by
  decide

/-- Counterexample for C7: on a legend whose nodata sentinel has code 0,
`classByCode(0)` finds the sentinel but `class_by_code(0)` returns `None` —
the newer lookup searches only `key`, not the nodata sentinel, so the two
lookups do not range over the same classes. -/
theorem claim7_counterexample :
    legendNd.classByCode 0 = .ok noDataClass ∧
    legendNd.class_by_code 0 = none :=
  ⟨rfl, rfl⟩

/-- C7 as amended: `classByCode` performs an exact lookup over the legend's
classes including the nodata sentinel and raises `KeyError` when no class
matches, while `class_by_code` performs an exact lookup over `key` only
(excluding the nodata sentinel), returns `None` when no class matches, and
never raises. -/
theorem claim7_amended : ∀ (l : LCLegend) (code : Int),
    ((∃ e, l.classByCode code = .error e) ↔
      ∀ c ∈ l.key_with_nodata, c.code ≠ code) ∧
    (∀ c, l.classByCode code = .ok c → c ∈ l.key_with_nodata ∧ c.code = code) ∧
    ((l.class_by_code code = none) ↔ ∀ c ∈ l.key, c.code ≠ code) ∧
    (∀ c, l.class_by_code code = some c → c ∈ l.key ∧ c.code = code) := by
  intro l code
  refine ⟨⟨?_, ?_⟩, ?_, ⟨?_, ?_⟩, ?_⟩
  · intro ⟨e, he⟩ c hc hcode
    cases hf : l.key_with_nodata.filter (fun c => c.code == code) with
    | nil =>
        exact absurd (by simp [hcode]) (List.filter_eq_nil_iff.mp hf c hc)
    | cons a t => simp [LCLegend.classByCode, hf] at he
  · intro hall
    have hf : l.key_with_nodata.filter (fun c => c.code == code) = [] :=
      List.filter_eq_nil_iff.mpr (fun a ha => by simpa using hall a ha)
    exact ⟨"KeyError: No LCClass found for code",
      by simp [LCLegend.classByCode, hf]⟩
  · intro c hc
    cases hf : l.key_with_nodata.filter (fun c => c.code == code) with
    | nil => simp [LCLegend.classByCode, hf] at hc
    | cons a t =>
        have ha : a ∈ l.key_with_nodata.filter (fun c => c.code == code) := by
          rw [hf]; exact List.mem_cons_self a t
        rw [List.mem_filter] at ha
        simp [LCLegend.classByCode, hf] at hc
        exact hc ▸ ⟨ha.1, by simpa using ha.2⟩
  · intro hn c hc hcode
    rw [LCLegend.class_by_code, LCLegend.class_by_attr_code,
      List.head?_eq_none_iff] at hn
    exact absurd (by simp [hcode]) (List.filter_eq_nil_iff.mp hn c hc)
  · intro hall
    rw [LCLegend.class_by_code, LCLegend.class_by_attr_code,
      List.head?_eq_none_iff]
    exact List.filter_eq_nil_iff.mpr (fun a ha => by simpa using hall a ha)
  · intro c hc
    have hm : c ∈ l.key.filter (fun c => c.code == code) :=
      List.mem_of_mem_head? hc
    rw [List.mem_filter] at hm
    exact ⟨hm.1, by simpa using hm.2⟩

/-- Witness for C7's amended theorem: on the nodata-sentinel legend,
`class_by_code(0)` misses (code 0 lives only on the sentinel) and
`classByCode(99)` raises. -/
theorem claim7_witness :
    legendNd.class_by_code 0 = none ∧
    ∃ e, legendNd.classByCode 99 = .error e :=
  ⟨(claim7_amended legendNd 0).2.2.1.mpr (by decide),
   (claim7_amended legendNd 99).1.mpr (by decide)⟩

/-- Counterexample for C5: the legend `{1, 3}` built by `__post_init__` is
sorted, but `add_update_class` with a fresh class of code 2 appends at the
end of `key`, leaving the codes in order `[1, 3, 2]`, which is not
ascending. -/
theorem claim5_counterexample :
    LCLegend.post_init "L" [classOne, classThree] none = .ok legendOneThree ∧
    (legendOneThree.add_update_class classTwo).key.map (fun c => c.code) =
      [1, 3, 2] ∧
    ¬ List.Pairwise (fun a b : Int => a ≤ b) [1, 3, 2] :=
  ⟨rfl, rfl, by decide⟩

end TESchemas

namespace ErrorRecode

/-- C9: the two `ErrorRecodePolygons` lookup forms are consistent —
`trans_code_lists` enumerates the 4×4×4 = 64 option triples (deg outer,
stable middle, improved inner), assigns sequential codes 0–63, and replaces
`None` by `-9999` in the three target lists; `recode_to_trans_code_dict`
keys the literal triples (with `None` kept) in the same enumeration order,
and every dict entry's code points at the matching positions of the
parallel lists. -/
theorem claim9_error_recode_consistency :
    (optionTriples.length = 4 * 4 * 4 ∧
     recode_deg_to_options.length = 4 ∧
     recode_stable_to_options.length = 4 ∧
     recode_imp_to_options.length = 4) ∧
    (trans_code_lists.1 = List.range 64 ∧
     trans_code_lists.2.1.length = 64 ∧
     trans_code_lists.2.2.1.length = 64 ∧
     trans_code_lists.2.2.2.length = 64) ∧
    (recode_to_trans_code_dict.map (fun e => e.1) = optionTriples ∧
     recode_to_trans_code_dict.map (fun e => e.2) = List.range 64) ∧
    (∀ e ∈ recode_to_trans_code_dict,
      trans_code_lists.1[e.2]? = some e.2 ∧
      trans_code_lists.2.1[e.2]? = some (noneToSentinel e.1.1) ∧
      trans_code_lists.2.2.1[e.2]? = some (noneToSentinel e.1.2.1) ∧
      trans_code_lists.2.2.2[e.2]? = some (noneToSentinel e.1.2.2)) ∧
    (∀ d ∈ recode_deg_to_options, ∀ s ∈ recode_stable_to_options,
      ∀ i ∈ recode_imp_to_options,
        (d, s, i) ∈ recode_to_trans_code_dict.map (fun e => e.1)) := by
  decide

end ErrorRecode

namespace TESchemas

/-- The search in `ceilLog10` never returns below its starting point. -/
theorem ceilLog10_go_ge (n : Nat) : ∀ fuel k, k ≤ ceilLog10.go n fuel k
  | 0, k => le_refl k
  | fuel + 1, k => by
      simp only [ceilLog10.go]
      split
      · exact le_refl k
      · exact le_trans (Nat.le_succ k) (ceilLog10_go_ge n fuel (k + 1))

/-- Every index from the starting point up to (excluding) the returned index
fails the bound test. -/
theorem ceilLog10_go_min (n : Nat) :
    ∀ fuel k j, k ≤ j → j < ceilLog10.go n fuel k → ¬ n ≤ 10 ^ j
  | 0, k, j, hkj, hj => by
      simp only [ceilLog10.go] at hj
      omega
  | fuel + 1, k, j, hkj, hj => by
      simp only [ceilLog10.go] at hj
      by_cases h : n ≤ 10 ^ k
      · rw [if_pos h] at hj
        omega
      · rw [if_neg h] at hj
        rcases Nat.eq_or_lt_of_le hkj with heq | hlt
        · exact heq ▸ h
        · exact ceilLog10_go_min n fuel (k + 1) j hlt hj

/-- If some index in the searched window satisfies the bound, the returned
index satisfies it. -/
theorem ceilLog10_go_le_pow (n : Nat) :
    ∀ fuel k, (∃ j, k ≤ j ∧ j < k + fuel ∧ n ≤ 10 ^ j) →
      n ≤ 10 ^ ceilLog10.go n fuel k
  | 0, _, ⟨_, hkj, hj, _⟩ => absurd hj (by omega)
  | fuel + 1, k, ⟨j, hkj, hjf, hnj⟩ => by
      simp only [ceilLog10.go]
      by_cases h : n ≤ 10 ^ k
      · rw [if_pos h]
        exact h
      · rw [if_neg h]
        refine ceilLog10_go_le_pow n fuel (k + 1) ⟨j, ?_, by omega, hnj⟩
        rcases Nat.eq_or_lt_of_le hkj with heq | hlt
        · exact absurd (heq ▸ hnj) h
        · exact hlt

/-- `ceilLog10 n` bounds `n` (`10 ^ ceilLog10 n` is a power of 10 that is
greater than or equal to `n`). -/
theorem le_pow_ceilLog10 (n : Nat) : n ≤ 10 ^ ceilLog10 n := by
  unfold ceilLog10
  exact ceilLog10_go_le_pow n (n + 1) 0
    ⟨n, Nat.zero_le n, by omega, le_of_lt (Nat.lt_pow_self (by norm_num) n)⟩

/-- `ceilLog10 n` is the least exponent whose power of 10 bounds `n` (so
`10 ^ ceilLog10 n` is the smallest power of 10 that is at least `n`). -/
theorem ceilLog10_le (n k : Nat) (h : n ≤ 10 ^ k) : ceilLog10 n ≤ k := by
  by_contra hc
  unfold ceilLog10 at hc
  exact ceilLog10_go_min n (n + 1) 0 k (Nat.zero_le k) (by omega) h

/-- Packing two ordinals from `[1, n]` as `a * m + b` with a multiplier
`m ≥ n` is injective. -/
theorem pack_inj {m n a b a' b' : Nat} (hm : n ≤ m)
    (hb1 : 1 ≤ b) (hb2 : b ≤ n) (hb1' : 1 ≤ b') (hb2' : b' ≤ n)
    (h : a * m + b = a' * m + b') : a = a' ∧ b = b' := by
  rcases Nat.lt_trichotomy a a' with hlt | heq | hgt
  · exfalso
    have h1 : (a + 1) * m ≤ a' * m := Nat.mul_le_mul hlt (le_refl m)
    rw [Nat.succ_mul] at h1
    have hbm : b ≤ m := le_trans hb2 hm
    linarith
  · exact ⟨heq, by subst heq; exact Nat.add_left_cancel h⟩
  · exfalso
    have h1 : (a' + 1) * m ≤ a * m := Nat.mul_le_mul hgt (le_refl m)
    rw [Nat.succ_mul] at h1
    have hbm : b' ≤ m := le_trans hb2' hm
    linarith

/-- `class_index` is always at least 1 (it is a 1-based position). -/
theorem class_index_pos (l : LCLegend) (c : LCClass) : 1 ≤ l.class_index c :=
  Nat.succ_le_succ (Nat.zero_le _)

/-- `class_index` of a member of `key` is at most the number of classes. -/
theorem class_index_le (l : LCLegend) (c : LCClass) (hc : c ∈ l.key) :
    l.class_index c ≤ l.key.length := by
  have hmem : c.code ∈ (l.key.map (fun c => c.code)).insertionSort (· ≤ ·) := by
    rw [List.mem_insertionSort]
    exact List.mem_map_of_mem _ hc
  have hlt := List.indexOf_lt_length.mpr hmem
  rw [List.length_insertionSort, List.length_map] at hlt
  simp only [LCLegend.class_index]
  omega

/-- Members of `key` with equal `class_index` have equal codes. -/
theorem class_index_inj_code (l : LCLegend) {c c' : LCClass}
    (hc : c ∈ l.key) (hc' : c' ∈ l.key)
    (h : l.class_index c = l.class_index c') : c.code = c'.code := by
  have hmem : c.code ∈ (l.key.map (fun c => c.code)).insertionSort (· ≤ ·) := by
    rw [List.mem_insertionSort]
    exact List.mem_map_of_mem _ hc
  have hmem' : c'.code ∈ (l.key.map (fun c => c.code)).insertionSort (· ≤ ·) := by
    rw [List.mem_insertionSort]
    exact List.mem_map_of_mem _ hc'
  refine (List.indexOf_inj hmem hmem').mp ?_
  simp only [LCLegend.class_index] at h
  omega

/-- C2: for every legend with distinct class codes, `get_multiplier()` is
`10 ^ ceil(log10 n)` — the smallest power of 10 greater than or equal to
`n = len(key)` — and the map sending an ordered pair of legend classes to
`class_index(initial) * get_multiplier() + class_index(final)` (with
`class_index` the 1-based position in the code-sorted key) is injective
over all ordered pairs. -/
theorem claim2_transition_code_injective (l : LCLegend)
    (hnd : (l.key.map (fun c => c.code)).Nodup) :
    (l.get_multiplier = 10 ^ ceilLog10 l.key.length ∧
     l.key.length ≤ l.get_multiplier ∧
     (∀ k, l.key.length ≤ 10 ^ k → l.get_multiplier ≤ 10 ^ k)) ∧
    (∀ ci ∈ l.key, ∀ cf ∈ l.key, ∀ ci' ∈ l.key, ∀ cf' ∈ l.key,
      l.class_index ci * l.get_multiplier + l.class_index cf =
        l.class_index ci' * l.get_multiplier + l.class_index cf' →
      ci = ci' ∧ cf = cf') := by
  constructor
  · exact ⟨rfl, le_pow_ceilLog10 _,
      fun k hk => Nat.pow_le_pow_right (by norm_num) (ceilLog10_le _ k hk)⟩
  · intro ci hci cf hcf ci' hci' cf' hcf' heq
    obtain ⟨ha, hb⟩ := pack_inj (le_pow_ceilLog10 l.key.length)
      (class_index_pos l cf) (class_index_le l cf hcf)
      (class_index_pos l cf') (class_index_le l cf' hcf') heq
    exact ⟨List.inj_on_of_nodup_map hnd hci hci'
        (class_index_inj_code l hci hci' ha),
      List.inj_on_of_nodup_map hnd hcf hcf'
        (class_index_inj_code l hcf hcf' hb)⟩

/-- Witness for C2: the two-class legend has distinct codes, its multiplier
bounds its size, and the pair `(Forest, Grassland)` maps injectively. -/
theorem claim2_witness :
    legendTwo.key.length ≤ legendTwo.get_multiplier ∧
    (forest = forest ∧ grassland = grassland) :=
  ⟨(claim2_transition_code_injective legendTwo (by decide)).1.2.1,
   (claim2_transition_code_injective legendTwo (by decide)).2
     forest (by decide) grassland (by decide)
     forest (by decide) grassland (by decide) rfl⟩

end TESchemas

namespace TESchemas

/-- A list has no duplicates iff deduplication preserves its length: the
embedding of Python's `len(set(x)) == len(x)` test. -/
theorem nodup_iff_dedup_length {α : Type} [DecidableEq α] (l : List α) :
    l.Nodup ↔ l.dedup.length = l.length := by
  constructor
  · intro h
    rw [List.dedup_eq_self.mpr h]
  · intro h
    have he := (List.dedup_sublist l).eq_of_length h
    rw [← he]
    exact l.nodup_dedup

/-- Updating the first code match in place leaves the code sequence of the
list unchanged (`LCClass.update` never touches `code`). -/
theorem updateFirstByCode_map_code (key : List LCClass) (lcc : LCClass) :
    (LCLegend.add_update_class.updateFirstByCode key lcc).map
        (fun c => c.code) =
      key.map (fun c => c.code) := by
  induction key with
  | nil => rfl
  | cons c rest ih =>
      simp only [LCLegend.add_update_class.updateFirstByCode]
      by_cases h : c.code == lcc.code
      · rw [if_pos h]
        simp [LCClass.update]
      · rw [if_neg h]
        simp [ih]

/-- When the code is already present, `add_update_class` rebuilds `key` by
updating the first match. -/
theorem add_update_class_found (l : LCLegend) (lcc : LCClass) (c : LCClass)
    (hcb : l.class_by_code lcc.code = some c) :
    (l.add_update_class lcc).key =
      LCLegend.add_update_class.updateFirstByCode l.key lcc := by
  simp [LCLegend.add_update_class, hcb]

/-- When the code is absent, `add_update_class` appends at the end. -/
theorem add_update_class_missing (l : LCLegend) (lcc : LCClass)
    (hcb : l.class_by_code lcc.code = none) :
    (l.add_update_class lcc).key = l.key ++ [lcc] := by
  simp [LCLegend.add_update_class, hcb]

/-- C5 as amended: construction rejects duplicate codes and otherwise leaves
`key` sorted ascending by code; `add_update_class` upserts by code —
delegating to `LCClass.update` when the code exists, which leaves the code
sequence (and hence the order) of `key` unchanged, and otherwise appending
the new class at the end of `key`, so the code-ascending order survives an
insertion only when the new code is at least every existing code (the
source never re-sorts after the append). -/
theorem claim5_amended :
    (∀ (name : String) (key : List LCClass) (nodata : Option LCClass),
      (∃ l, LCLegend.post_init name key nodata = .ok l) ↔
        (key.map (fun c => c.code)).Nodup) ∧
    (∀ (name : String) (key : List LCClass) (nodata : Option LCClass)
      (l : LCLegend), LCLegend.post_init name key nodata = .ok l →
        l.key.Pairwise (fun a b => a.code ≤ b.code)) ∧
    (∀ (l : LCLegend) (lcc : LCClass), l.class_by_code lcc.code ≠ none →
      (l.add_update_class lcc).key.map (fun c => c.code) =
        l.key.map (fun c => c.code)) ∧
    (∀ (l : LCLegend) (lcc : LCClass), l.class_by_code lcc.code = none →
      (l.add_update_class lcc).key = l.key ++ [lcc]) ∧
    (∀ (l : LCLegend) (lcc : LCClass),
      l.key.Pairwise (fun a b => a.code ≤ b.code) →
      (∀ c ∈ l.key, c.code ≤ lcc.code) →
      (l.add_update_class lcc).key.Pairwise (fun a b => a.code ≤ b.code)) := by
  have hfound : ∀ (l : LCLegend) (lcc : LCClass),
      l.class_by_code lcc.code ≠ none →
      (l.add_update_class lcc).key.map (fun c => c.code) =
        l.key.map (fun c => c.code) := by
    intro l lcc h
    cases hcb : l.class_by_code lcc.code with
    | none => exact absurd hcb h
    | some c =>
        rw [add_update_class_found l lcc c hcb]
        exact updateFirstByCode_map_code l.key lcc
  refine ⟨?_, ?_, hfound, add_update_class_missing, ?_⟩
  · intro name key nodata
    have hnod : (key.map (fun c => c.code)).Nodup ↔
        (key.map (fun c => c.code)).dedup.length = key.length := by
      rw [nodup_iff_dedup_length, List.length_map]
    by_cases hc : (key.map (fun c => c.code)).dedup.length = key.length
    · exact ⟨fun _ => hnod.mpr hc,
        fun _ => ⟨{ name := name
                    key := key.insertionSort (fun a b => a.code ≤ b.code)
                    nodata := nodata }, by simp [LCLegend.post_init, hc]⟩⟩
    · constructor
      · intro ⟨l, hl⟩
        simp [LCLegend.post_init, hc] at hl
      · intro hnd
        exact absurd (hnod.mp hnd) hc
  · intro name key nodata l hl
    by_cases hc : (key.map (fun c => c.code)).dedup.length = key.length
    · simp [LCLegend.post_init, hc] at hl
      subst hl
      exact List.sorted_insertionSort _ key
    · simp [LCLegend.post_init, hc] at hl
  · intro l lcc hp hle
    cases hcb : l.class_by_code lcc.code with
    | none =>
        rw [add_update_class_missing l lcc hcb]
        rw [List.pairwise_append]
        refine ⟨hp, List.pairwise_singleton _ _, ?_⟩
        intro a ha b hb
        rw [List.mem_singleton] at hb
        exact hb ▸ hle a ha
    | some c =>
        have h1 : ((l.add_update_class lcc).key.map (fun c => c.code)).Pairwise
            (fun a b : Int => a ≤ b) := by
          rw [hfound l lcc (by rw [hcb]; exact Option.noConfusion)]
          exact List.pairwise_map.mpr hp
        exact List.pairwise_map.mp h1

/-- Witness for C5's amended theorem: a duplicate-free construction succeeds
and an update-in-place on code 3 keeps the code sequence of `{1, 3}`. -/
theorem claim5_witness :
    (∃ l, LCLegend.post_init "L" [classOne, classThree] none = .ok l) ∧
    (legendOneThree.add_update_class
        { code := 3, name_short := some "x" }).key.map (fun c => c.code) =
      legendOneThree.key.map (fun c => c.code) :=
  ⟨(claim5_amended.1 "L" [classOne, classThree] none).mpr (by decide),
   claim5_amended.2.2.1 legendOneThree { code := 3, name_short := some "x" }
     (by decide)⟩

end TESchemas

namespace TESchemas

/-- Two `Int` lists have equal ascending sorts iff they are permutations of
each other (the comparison `sorted(xs) == sorted(ys)` is a multiset test). -/
theorem insertionSort_eq_iff_perm (A B : List Int) :
    A.insertionSort (· ≤ ·) = B.insertionSort (· ≤ ·) ↔ A.Perm B := by
  constructor
  · intro h
    have h1 : A.Perm (A.insertionSort (· ≤ ·)) :=
      (List.perm_insertionSort _ A).symm
    rw [h] at h1
    exact h1.trans (List.perm_insertionSort _ B)
  · intro h
    refine List.eq_of_perm_of_sorted ?_ (List.sorted_insertionSort _ A)
      (List.sorted_insertionSort _ B)
    exact (List.perm_insertionSort _ A).trans
      (h.trans (List.perm_insertionSort _ B).symm)

/-- Zipping a list against a same-length replicate pairs every element with
the constant. -/
theorem zip_replicate_right {α β : Type} (vs : List α) (k : β) :
    vs.zip (List.replicate vs.length k) = vs.map (fun v => (v, k)) := by
  induction vs with
  | nil => rfl
  | cons v t ih => simp [List.replicate_succ, ih]

/-- `LCLegendNesting.get_list` pairs each child code with its bucket's
parent code, bucket by bucket. -/
theorem nesting_get_list_zip (nesting : List (Int × List Int)) :
    (LCLegendNesting.get_list nesting).1.zip
        (LCLegendNesting.get_list nesting).2 =
      nesting.flatMap (fun kv => kv.2.map (fun v => (v, kv.1))) := by
  induction nesting with
  | nil => rfl
  | cons kv rest ih =>
      simp only [LCLegendNesting.get_list, List.flatMap_cons] at ih ⊢
      rw [List.zip_append (by simp), zip_replicate_right, ih]

/-- The two sequences emitted by `LCLegendNesting.get_list` have equal
length. -/
theorem nesting_get_list_length (nesting : List (Int × List Int)) :
    (LCLegendNesting.get_list nesting).1.length =
      (LCLegendNesting.get_list nesting).2.length := by
  induction nesting with
  | nil => rfl
  | cons kv rest ih =>
      simp only [LCLegendNesting.get_list, List.flatMap_cons,
        List.length_append, List.length_replicate] at ih ⊢
      omega

/-- C4: `LCLegendNesting` construction succeeds exactly when the nesting is
a genuine partition — every parent-legend code appears exactly once among
the nesting keys and every child-legend code exactly once across the value
lists (as permutations of the duplicate-free legend code lists); any dict
omitting a child code, listing a child code twice, duplicating a parent
key, or referencing a code outside the parent legend breaks the
permutations and fails. `get_list()` then returns two parallel sequences of
equal length pairing each child code with its parent code. -/
theorem claim4_nesting_partition (parent child : LCLegend)
    (nesting : List (Int × List Int))
    (hp : parent.codes.Nodup) (hc : child.codes.Nodup) :
    (LCLegendNesting.post_init parent child nesting = true ↔
      ((nesting.map (fun kv => kv.1)).Perm parent.codes ∧
       (nesting.flatMap (fun kv => kv.2)).Perm child.codes)) ∧
    (LCLegendNesting.get_list nesting).1.length =
      (LCLegendNesting.get_list nesting).2.length ∧
    (LCLegendNesting.get_list nesting).1.zip
        (LCLegendNesting.get_list nesting).2 =
      nesting.flatMap (fun kv => kv.2.map (fun v => (v, kv.1))) := by
  refine ⟨?_, nesting_get_list_length nesting, nesting_get_list_zip nesting⟩
  simp only [LCLegendNesting.post_init, Bool.and_eq_true, beq_iff_eq]
  constructor
  · rintro ⟨⟨⟨-, -⟩, hp1⟩, hc1⟩
    exact ⟨((insertionSort_eq_iff_perm _ _).mp hp1).symm,
      ((insertionSort_eq_iff_perm _ _).mp hc1).symm⟩
  · rintro ⟨permP, permC⟩
    have hnp : ((nesting.map (fun kv => kv.1)).insertionSort (· ≤ ·)).Nodup :=
      (List.perm_insertionSort _ _).nodup_iff.mpr (permP.nodup_iff.mpr hp)
    have hnc : ((nesting.flatMap (fun kv => kv.2)).insertionSort
        (· ≤ ·)).Nodup :=
      (List.perm_insertionSort _ _).nodup_iff.mpr (permC.nodup_iff.mpr hc)
    exact ⟨⟨⟨(nodup_iff_dedup_length _).mp hnp,
      (nodup_iff_dedup_length _).mp hnc⟩,
      (insertionSort_eq_iff_perm _ _).mpr permP.symm⟩,
      (insertionSort_eq_iff_perm _ _).mpr permC.symm⟩

/-- Witness for C4: parent codes `{1, 2}`, child codes `{10, 11, 12}`, and
the partition `{1: [10, 11], 2: [12]}` validates; its `get_list()` pairs
each child with its parent. -/
theorem claim4_witness :
    LCLegendNesting.post_init parentLegend childLegend nestingPC = true ∧
    (LCLegendNesting.get_list nestingPC).1.zip
        (LCLegendNesting.get_list nestingPC).2 =
      [(10, 1), (11, 1), (12, 2)] :=
  ⟨(claim4_nesting_partition parentLegend childLegend nestingPC
      (by decide) (by decide)).1.mpr ⟨by decide, by decide⟩,
   by
     rw [(claim4_nesting_partition parentLegend childLegend nestingPC
       (by decide) (by decide)).2.2]
     decide⟩

end TESchemas

namespace TESchemas

/-- Element at flat position `i * |l2| + j` of a two-level nested loop:
outer element `i`, inner element `j`. -/
theorem flatMap_map_getElem {α β γ : Type} (f : α → β → γ)
    (l1 : List α) (l2 : List β) (i j : Nat)
    (hi : i < l1.length) (hj : j < l2.length) :
    (l1.flatMap fun a => l2.map fun b => f a b)[i * l2.length + j]? =
      some (f l1[i] l2[j]) := by
  induction l1 generalizing i with
  | nil => simp at hi
  | cons a t ih =>
      cases i with
      | zero =>
          simp only [List.flatMap_cons, Nat.zero_mul, Nat.zero_add]
          rw [List.getElem?_append_left (by simpa using hj)]
          simp [List.getElem?_eq_getElem hj]
      | succ i =>
          simp only [List.flatMap_cons]
          have hidx : (i + 1) * l2.length + j =
              (l2.map (f a)).length + (i * l2.length + j) := by
            rw [List.length_map, Nat.succ_mul]
            ring
          rw [hidx, List.getElem?_append_right (Nat.le_add_right _ _),
            Nat.add_sub_cancel_left, ih i (by simpa using hi)]
          simp

/-- The cell of `get_persistence_list` at flat position `i * n + j` is the
pair `(key[i], key[j])` — `c_initial` is the outer loop. -/
theorem persistenceCells_getElem (l : LCLegend) (i j : Nat)
    (hi : i < l.key.length) (hj : j < l.key.length) :
    (persistenceCells l)[i * l.key.length + j]? = some (l.key[i], l.key[j]) :=
  flatMap_map_getElem (fun a b => (a, b)) l.key l.key i j hi hj

/-- The cell of `get_list` at flat position `i * n + j` is the pair
`(key[j], key[i])` — `c_final` is the outer loop and the pair is
`(c_initial, c_final)`. -/
theorem getListCells_getElem (l : LCLegend) (i j : Nat)
    (hi : i < l.key.length) (hj : j < l.key.length) :
    (getListCells l)[i * l.key.length + j]? = some (l.key[j], l.key[i]) :=
  flatMap_map_getElem (fun a b => (b, a)) l.key l.key i j hi hj

/-- C6: `get_persistence_list()` iterates `c_initial` outer and `c_final`
inner — the entry for the pair `(key[i], key[j])` sits at flat position
`i * n + j` — emitting `class_index(c_initial)` when the two codes are
equal (diagonal compression) and otherwise the full transition code
`class_index(c_initial) * multiplier + class_index(c_final)`, which is
exactly the code `get_list()` emits for the same pair (at its own position
`j * n + i`, since `get_list` iterates `c_final` outer). -/
theorem claim6_persistence_list (l : LCLegend) (i j : Nat)
    (hi : i < l.key.length) (hj : j < l.key.length)
    (ts : List LCTransitionMeaningDeg) (o0 : List Nat) (o1 : List Int)
    (hg : LCTransitionDefinitionBase.get_list l ts = some (o0, o1)) :
    (LCTransitionDefinitionBase.get_persistence_list
        l).1[i * l.key.length + j]? =
      some (l.class_index l.key[i] * l.get_multiplier +
        l.class_index l.key[j]) ∧
    (LCTransitionDefinitionBase.get_persistence_list
        l).2[i * l.key.length + j]? =
      some (if l.key[j].code = l.key[i].code then l.class_index l.key[i]
        else l.class_index l.key[i] * l.get_multiplier +
          l.class_index l.key[j]) ∧
    o0[j * l.key.length + i]? =
      some (l.class_index l.key[i] * l.get_multiplier +
        l.class_index l.key[j]) := by
  have hcells := persistenceCells_getElem l i j hi hj
  refine ⟨?_, ?_, ?_⟩
  · simp only [LCTransitionDefinitionBase.get_persistence_list,
      List.getElem?_map, hcells]
    rfl
  · simp only [LCTransitionDefinitionBase.get_persistence_list,
      List.getElem?_map, hcells]
    by_cases h : l.key[j].code = l.key[i].code
    · simp [h]
    · simp [h]
  · simp only [LCTransitionDefinitionBase.get_list] at hg
    cases hm : (getListCells l).mapM (fun p =>
        ((ts.filter
            (fun t => t.initial == p.1 && t.final == p.2)).head?).bind
          (fun t => t.code)) with
    | none => rw [hm] at hg; exact absurd hg (by simp)
    | some ms =>
        rw [hm] at hg
        simp only [Option.some_inj, Prod.mk.injEq] at hg
        rw [← hg.1]
        simp only [List.getElem?_map, getListCells_getElem l j i hj hi]
        rfl

/-- Witness for C6: on the two-class legend, the pair `(Forest, Grassland)`
sits at persistence position 1 with the full code 12 on both lists (it is
off-diagonal), and `get_list` emits the same code 12 at its position 2. -/
theorem claim6_witness :
    (LCTransitionDefinitionBase.get_persistence_list legendTwo).1[1]? =
      some 12 ∧
    (LCTransitionDefinitionBase.get_persistence_list legendTwo).2[1]? =
      some 12 ∧
    ([11, 21, 12, 22] : List Nat)[2]? = some 12 := by
  have h := claim6_persistence_list legendTwo 0 1 (by decide) (by decide)
    matrixTwo [11, 21, 12, 22] [0, 1, -1, 0] (by decide)
  exact ⟨h.1.trans (by decide), h.2.1.trans (by decide),
    h.2.2.trans (by decide)⟩

end TESchemas

namespace TESchemas

/-- When a pair has exactly one matching transition, the selected (unique)
match is in the list and carries exactly that pair. -/
theorem unique_match_spec (ts : List LCTransitionMeaningDeg)
    (ci cf : LCClass) (h : countTrans ts ci cf = 1) :
    (ts.filter (fun t => t.initial == ci && t.final == cf)).headI ∈ ts ∧
    ((ts.filter (fun t => t.initial == ci && t.final == cf)).headI).initial
      = ci ∧
    ((ts.filter (fun t => t.initial == ci && t.final == cf)).headI).final
      = cf := by
  unfold countTrans at h
  obtain ⟨e, he⟩ := List.length_eq_one.mp h
  have hef : e ∈ ts.filter (fun t => t.initial == ci && t.final == cf) := by
    rw [he]
    exact List.mem_singleton.mpr rfl
  rw [List.mem_filter] at hef
  obtain ⟨hets, hpred⟩ := hef
  simp only [Bool.and_eq_true, beq_iff_eq] at hpred
  rw [he]
  exact ⟨hets, hpred.1, hpred.2⟩

/-- C3: with a nodata sentinel that never collides with the key classes,
`_validate_matrix` succeeds exactly when every ordered pair of (non-nodata)
legend classes has exactly one matching meaning entry and the matrix holds
`len(legend.key) ** 2` entries in total; a pair with zero matches fails, a
pair with more than one match fails, and a matrix that covers every pair
exactly once but also contains an entry referencing the nodata class fails
(its total count then cannot equal `len(key) ** 2`). -/
theorem claim3_validate_matrix (l : LCLegend)
    (ts : List LCTransitionMeaningDeg)
    (hnd : ∀ ci ∈ l.key, ∀ cf ∈ l.key, nodataHit l ci cf = false)
    (hkey : (l.key.map (fun c => c.code)).Nodup) :
    (validate_matrix l ts = true ↔
      ((∀ ci ∈ l.key, ∀ cf ∈ l.key, countTrans ts ci cf = 1) ∧
       ts.length = l.key.length ^ 2)) ∧
    ((∃ ci ∈ l.key, ∃ cf ∈ l.key, countTrans ts ci cf = 0) →
      validate_matrix l ts = false) ∧
    ((∃ ci ∈ l.key, ∃ cf ∈ l.key, 1 < countTrans ts ci cf) →
      validate_matrix l ts = false) ∧
    (∀ nd, l.nodata = some nd →
      (∀ ci ∈ l.key, ∀ cf ∈ l.key, countTrans ts ci cf = 1) →
      (∃ t ∈ ts, t.initial = nd ∨ t.final = nd) →
      validate_matrix l ts = false) := by
  have hiff : validate_matrix l ts = true ↔
      ((∀ ci ∈ l.key, ∀ cf ∈ l.key, countTrans ts ci cf = 1) ∧
       ts.length = l.key.length ^ 2) := by
    simp only [validate_matrix, Bool.and_eq_true, List.all_eq_true,
      Bool.not_eq_true', beq_iff_eq]
    constructor
    · rintro ⟨hall, hlen⟩
      exact ⟨fun ci hci cf hcf => (hall cf hcf ci hci).2, hlen⟩
    · rintro ⟨hcount, hlen⟩
      exact ⟨fun cf hcf ci hci =>
        ⟨hnd ci hci cf hcf, hcount ci hci cf hcf⟩, hlen⟩
  refine ⟨hiff, ?_, ?_, ?_⟩
  · rintro ⟨ci, hci, cf, hcf, hc0⟩
    cases hval : validate_matrix l ts with
    | false => rfl
    | true =>
        have := (hiff.mp hval).1 ci hci cf hcf
        omega
  · rintro ⟨ci, hci, cf, hcf, hc2⟩
    cases hval : validate_matrix l ts with
    | false => rfl
    | true =>
        have := (hiff.mp hval).1 ci hci cf hcf
        omega
  · rintro nd hnds hcount ⟨t0, ht0, href⟩
    have hndk : ∀ c ∈ l.key, nd ≠ c := by
      intro c hc heq
      have hh := hnd c hc c hc
      rw [nodataHit, hnds] at hh
      simp [heq] at hh
    cases hval : validate_matrix l ts with
    | false => rfl
    | true =>
        exfalso
        have hlen := (hiff.mp hval).2
        have hker : l.key.Nodup := List.Nodup.of_map (fun c => c.code) hkey
        have hmaps : ∀ p ∈ l.key.toFinset ×ˢ l.key.toFinset,
            (fun p : LCClass × LCClass =>
              (ts.filter (fun t =>
                t.initial == p.1 && t.final == p.2)).headI) p ∈
              ts.toFinset.erase t0 := by
          intro p hp
          rw [Finset.mem_product] at hp
          have hp1 := List.mem_toFinset.mp hp.1
          have hp2 := List.mem_toFinset.mp hp.2
          have spec := unique_match_spec ts p.1 p.2 (hcount p.1 hp1 p.2 hp2)
          rw [Finset.mem_erase]
          refine ⟨?_, List.mem_toFinset.mpr spec.1⟩
          intro heq
          rcases href with h0 | h0
          · refine hndk p.1 hp1 ?_
            rw [← h0, ← heq]
            exact spec.2.1
          · refine hndk p.2 hp2 ?_
            rw [← h0, ← heq]
            exact spec.2.2
        have hinj : Set.InjOn
            (fun p : LCClass × LCClass =>
              (ts.filter (fun t =>
                t.initial == p.1 && t.final == p.2)).headI)
            ↑(l.key.toFinset ×ˢ l.key.toFinset) := by
          intro p hp q hq heq
          rw [Finset.mem_coe, Finset.mem_product] at hp hq
          have specp := unique_match_spec ts p.1 p.2
            (hcount p.1 (List.mem_toFinset.mp hp.1) p.2
              (List.mem_toFinset.mp hp.2))
          have specq := unique_match_spec ts q.1 q.2
            (hcount q.1 (List.mem_toFinset.mp hq.1) q.2
              (List.mem_toFinset.mp hq.2))
          have h1 : p.1 = q.1 := by
            rw [← specp.2.1, ← specq.2.1]
            exact congrArg LCTransitionMeaningDeg.initial heq
          have h2 : p.2 = q.2 := by
            rw [← specp.2.2, ← specq.2.2]
            exact congrArg LCTransitionMeaningDeg.final heq
          exact Prod.ext h1 h2
        have hcard := Finset.card_le_card_of_injOn _ hmaps hinj
        rw [Finset.card_product, List.toFinset_card_of_nodup hker,
          Finset.card_erase_of_mem (List.mem_toFinset.mpr ht0)] at hcard
        have h2 : ts.toFinset.card ≤ ts.length := List.toFinset_card_le ts
        rw [hlen, Nat.pow_two] at h2
        have h3 : 0 < ts.toFinset.card :=
          Finset.card_pos.mpr ⟨t0, List.mem_toFinset.mpr ht0⟩
        have h4 := le_trans h2 hcard
        omega

/-- Witness for C3: the complete 2×2 matrix over the two-class legend
validates. -/
theorem claim3_witness : validate_matrix legendTwo matrixTwo = true :=
  (claim3_validate_matrix legendTwo matrixTwo (by decide) (by decide)).1.mpr
    ⟨by decide, by decide⟩

end TESchemas
